import Mathlib

/-!
Verification of the ISBN bibliographer core: the identifier codec of
`modules/isbn_validator.py` and the resolution / session logic of `main.py`.
A Python `str` is embedded as `List Char`; the embedding covers the ASCII
fragment the code manipulates (digits, `'X'`, hyphen, whitespace, Latin
letters).  Python `None` becomes `Option.none`, a fallible function returns
`Option`.
-/

namespace IsbnBib

/-- Python `str.upper` on one character (ASCII case mapping: `'a'`–`'z'`,
code points 97–122, map down by 32). -/
def upperChar (c : Char) : Char :=
  if 97 ≤ c.toNat ∧ c.toNat ≤ 122 then Char.ofNat (c.toNat - 32) else c

/-- Python `str.lower` on one character (ASCII case mapping). -/
def lowerChar (c : Char) : Char :=
  if 65 ≤ c.toNat ∧ c.toNat ≤ 90 then Char.ofNat (c.toNat + 32) else c

/-- The ASCII whitespace characters recognised by Python `str.strip()` /
`str.isspace()`: space, tab, newline, vertical tab, form feed, carriage
return. -/
def pyIsSpace (c : Char) : Bool :=
  c = ' ' || c = '\t' || c = '\n' || c = '\x0b' || c = '\x0c' || c = '\r'

/-- Python `s.strip()`: drop leading and trailing whitespace. -/
def pyStrip (s : List Char) : List Char :=
  ((s.dropWhile pyIsSpace).reverse.dropWhile pyIsSpace).reverse

/-- Python `s.replace(c, "")` for a one-character pattern: delete every
occurrence of `c`. -/
def removeChar (s : List Char) (c : Char) : List Char :=
  s.filter (fun x => x ≠ c)

/-- Python `s.upper()`. -/
def pyUpper (s : List Char) : List Char := s.map upperChar

/-- Python `s.lower()`. -/
def pyLower (s : List Char) : List Char := s.map lowerChar

/-- `normalize_isbn` (isbn_validator.py, lines 3–5):
`isbn.replace("-", "").replace(" ", "").upper()`. -/
def normalize_isbn (s : List Char) : List Char :=
  pyUpper (removeChar (removeChar s '-') ' ')

/-- The character class `\d` of the validation regexes (ASCII digits). -/
def isDigitChar (c : Char) : Bool := 48 ≤ c.toNat && c.toNat ≤ 57

/-- Python `int(c)` for a digit character `c`. -/
def digitVal (c : Char) : Nat := c.toNat - 48

/-- The regex `^\d{9}[\dX]$` of `is_valid_isbn10` under Python `re.match`
semantics: nine digits, one digit-or-`'X'`, then `$`, which matches at
the end of the string or just before one newline that ends the string.
So strings of length 10, and strings of length 11 whose last character is
`'\n'`, can match. -/
def regexIsbn10 (n : List Char) : Bool :=
  (n.length == 10 || (n.length == 11 && n.getD 10 '0' == '\n')) &&
    (n.take 9).all isDigitChar &&
    (isDigitChar (n.getD 9 '0') || n.getD 9 '0' == 'X')

/-- The weighted sum over the first nine characters computed by the loop of
`is_valid_isbn10` (and of `to_isbn10`): `Σ int(n[i])·(10−i)` for `i=0..8`. -/
def isbn10core (n : List Char) : Nat :=
  ∑ i ∈ Finset.range 9, digitVal (n.getD i '0') * (10 - i)

/-- The full total of `is_valid_isbn10`: the nine weighted digits plus the
check character (10 for `'X'`, else its digit value). -/
def isbn10total (n : List Char) : Nat :=
  isbn10core n + (if n.getD 9 '0' = 'X' then 10 else digitVal (n.getD 9 '0'))

/-- `is_valid_isbn10` (isbn_validator.py, lines 7–23). -/
def is_valid_isbn10 (s : List Char) : Bool :=
  let n := normalize_isbn s
  regexIsbn10 n && isbn10total n % 11 == 0

/-- The weighted sum over the first twelve characters computed by the loop
of `is_valid_isbn13` (and of `to_isbn13`): weights alternate 1, 3. -/
def isbn13core (n : List Char) : Nat :=
  ∑ i ∈ Finset.range 12, digitVal (n.getD i '0') * (if i % 2 = 0 then 1 else 3)

/-- The regex `^\d{13}$` of `is_valid_isbn13`, with the same `$`
semantics: thirteen digits followed by the end of the string or by one
newline that ends the string. -/
def regexIsbn13 (n : List Char) : Bool :=
  (n.length == 13 || (n.length == 14 && n.getD 13 '0' == '\n')) &&
    (n.take 13).all isDigitChar

/-- `is_valid_isbn13` (isbn_validator.py, lines 25–37). -/
def is_valid_isbn13 (s : List Char) : Bool :=
  let n := normalize_isbn s
  regexIsbn13 n &&
    ((10 - isbn13core n % 10) % 10 == digitVal (n.getD 12 '0'))

/-- `to_isbn13` (isbn_validator.py, lines 39–52): normalize, require a valid
ISBN-10, prefix `"978"`, drop the old check digit, recompute the ISBN-13
check digit over the 12-character stem, append it (`Nat.digitChar` is
Python `str(d)` for `d ≤ 9`). -/
def to_isbn13 (s : List Char) : Option (List Char) :=
  let isbn10 := normalize_isbn s
  if is_valid_isbn10 isbn10 then
    let p12 := '9' :: '7' :: '8' :: isbn10.dropLast
    let check := (10 - isbn13core p12 % 10) % 10
    some (p12 ++ [Nat.digitChar check])
  else none

/-- `to_isbn10` (isbn_validator.py, lines 54–72): normalize, require a valid
ISBN-13 starting with `"978"`, take the stem `isbn13[3:-1]`, recompute the
ISBN-10 check character (`'X'` when the check value is 10). -/
def to_isbn10 (s : List Char) : Option (List Char) :=
  let isbn13 := normalize_isbn s
  if is_valid_isbn13 isbn13 then
    if isbn13.take 3 = ['9', '7', '8'] then
      let stem := (isbn13.drop 3).dropLast
      let cv := (11 - isbn10core stem % 11) % 11
      some (stem ++ [if cv = 10 then 'X' else Nat.digitChar cv])
    else none
  else none

/-- The normalization that the specification describes, written from the
spec's words for the refinement comparison of claim C6: strip all hyphen
and whitespace characters (spaces, tabs, newlines, any other whitespace)
and upper-case the rest. -/
def normalizeSpecWords (s : List Char) : List Char :=
  (s.filter (fun c => !(c = '-' || pyIsSpace c))).map upperChar

/-- Transposition of the characters at positions `i` and `j`, the operation
the checksum-rejection property quantifies over. -/
def listSwap (l : List Char) (i j : Nat) : List Char :=
  (l.set i (l.getD j '0')).set j (l.getD i '0')

/-- A bibliography record: the Python dict with the fixed key set built by
`format_book_data` (bibliography_formatter.py, lines 21–39); `none` is
Python `None` / missing key, matching `dict.get` semantics. -/
structure Record where
  inputIsbn : Option (List Char) := none
  title : Option (List Char) := none
  subtitle : Option (List Char) := none
  authors : Option (List Char) := none
  publisher : Option (List Char) := none
  publicationDate : Option (List Char) := none
  publicationYear : Option (List Char) := none
  isbn10Field : Option (List Char) := none
  isbn13Field : Option (List Char) := none
  pageCount : Option Nat := none
  language : Option (List Char) := none
  edition : Option (List Char) := none
  description : Option (List Char) := none
  categories : Option (List Char) := none
  coverImageUrl : Option (List Char) := none
  sourceApi : Option (List Char) := none
  error : Option (List Char) := none
deriving DecidableEq

/-- Python truthiness of an optional string: `None` and `""` are falsy. -/
def falsyStr (o : Option (List Char)) : Bool :=
  match o with
  | none => true
  | some s => s.isEmpty

/-- Python f-string rendering of an optional string (`None` prints as
`"None"`). -/
def optStr (o : Option (List Char)) : List Char :=
  match o with
  | none => "None".toList
  | some s => s

/-- `process_single_isbn` (main.py, lines 51–105), parameterised by its two
external collaborators: `fetch` embeds `fetch_book_data_google` (the api
key is absorbed into the oracle; `α` is the raw JSON payload type) and
`fmt` embeds `format_book_data`.  Besides the record, the embedding
returns the list of identifiers queried on the metadata source, making
call counts visible.  The function is total: no execution path raises. -/
def process_single_isbn {α : Type} (fetch : List Char → Option α)
    (fmt : α → List Char → Record) (isbn_raw : List Char)
    (preferred_api : List Char) : Record × List (List Char) :=
  let normalized := normalize_isbn isbn_raw
  let valid10 := is_valid_isbn10 normalized
  let valid13 := is_valid_isbn13 normalized
  if valid13 || valid10 then
    let isbn_to_query := normalized
    let query_type := if valid13 then "ISBN-13".toList else "ISBN-10".toList
    let google := pyLower preferred_api == "google".toList
    let book_api_response := if google then fetch isbn_to_query else none
    let api_source_used : Option (List Char) :=
      if google then some ("google".toList) else none
    let calls := if google then [isbn_to_query] else []
    match book_api_response with
    | some resp =>
      let fd0 := fmt resp (optStr api_source_used)
      let fd1 := { fd0 with inputIsbn := some isbn_raw }
      let fd2 :=
        if falsyStr fd1.isbn10Field && falsyStr fd1.isbn13Field then
          let fdA := if valid10 then { fd1 with isbn10Field := some normalized } else fd1
          let fdB := if valid13 then { fdA with isbn13Field := some normalized } else fdA
          if valid10 && !valid13 then
            match to_isbn13 normalized with
            | some conv => { fdB with isbn13Field := some conv }
            | none => fdB
          else fdB
        else fd1
      (fd2, calls)
    | none =>
      ({ inputIsbn := some isbn_raw,
         error := some ("No data found by ".toList ++ optStr api_source_used ++
           " API for ".toList ++ query_type ++ " ".toList ++ isbn_to_query) }, calls)
  else
    ({ inputIsbn := some isbn_raw, error := some ("Invalid ISBN format".toList) }, [])

/-- One read from the interactive input stream: a line, end-of-stream
(`EOFError`), or a keyboard interrupt. -/
inductive ScanEvent where
  | line (s : List Char)
  | eof
  | interrupt
deriving DecidableEq

/-- The loop-exit test of the scanner loop (main.py, line 222):
`scanned_input.upper() == 'QUITSCAN'` on the stripped input line. -/
def isSentinel (t : List Char) : Bool := pyUpper t == "QUITSCAN".toList

/-- The session records accumulated by the `while True` loop of
`run_hid_scanner_mode` (main.py, lines 211–254): events are read in order;
EOF and interrupt break out; each line is stripped, tested against the
sentinel (break), then against emptiness (continue); every other line is
resolved by the pipeline (`proc` stands for the `process_single_isbn` call
with the configured collaborators) and appended in scan order. -/
def sessionRecords (proc : List Char → Record) : List ScanEvent → List Record
  | [] => []
  | ScanEvent.eof :: _ => []
  | ScanEvent.interrupt :: _ => []
  | ScanEvent.line s :: rest =>
    let scanned_input := pyStrip s
    if isSentinel scanned_input then []
    else if scanned_input.isEmpty then sessionRecords proc rest
    else proc scanned_input :: sessionRecords proc rest

/-- main.py imports argparse, logging, time, json, os and four module
functions; it never imports pandas, so the name `pd` used at line 182 is
unbound in the module namespace. -/
def mainModuleBindsPd : Bool := false

/-- The existing-data loading block of `run_hid_scanner_mode` (main.py,
lines 176–204).  `store` is the record set persisted at the destination
(`none` when the file does not exist).  When the file exists the code
evaluates `pd.read_excel(...)`; because `pd` is unbound this raises
`NameError`, which the `except Exception` handler at line 196 catches,
resetting the list to `[]`.  Loading could succeed only if the module
bound `pd`. -/
def loadExistingRecords (store : Option (List Record)) : List Record :=
  match store with
  | none => []
  | some stored => if mainModuleBindsPd then stored else []

/-- `run_hid_scanner_mode` (main.py, lines 167–281) reduced to its data
flow: load prior records, accumulate the session records, extend the list
(lines 258–260), and write the result wholesale (lines 262–271;
`write_bibliography_to_excel` refuses empty data, so `none` models
"nothing written"). -/
def run_hid_scanner_mode (proc : List Char → Record)
    (store : Option (List Record)) (events : List ScanEvent) :
    Option (List Record) :=
  let bibliography_data := loadExistingRecords store
  let scanned_items_session := sessionRecords proc events
  let merged :=
    if scanned_items_session.isEmpty then bibliography_data
    else bibliography_data ++ scanned_items_session
  if merged.isEmpty then none else some merged

/-! ### Character-level lemmas -/

theorem toNat_ofNat_valid {n : Nat} (h : n < 55296) : (Char.ofNat n).toNat = n := by
  rw [Char.ofNat, dif_pos (Or.inl h)]
  rfl

theorem charToNat_inj {a b : Char} (h : a.toNat = b.toNat) : a = b :=
  Char.ext (UInt32.ext h)

theorem upperChar_toNat (c : Char) :
    (upperChar c).toNat =
      if 97 ≤ c.toNat ∧ c.toNat ≤ 122 then c.toNat - 32 else c.toNat := by
  unfold upperChar
  split
  · next h => exact toNat_ofNat_valid (by omega)
  · rfl

theorem upperChar_idem (c : Char) : upperChar (upperChar c) = upperChar c := by
  apply charToNat_inj
  simp only [upperChar_toNat]
  split_ifs <;> omega

theorem upperChar_eq_self {c : Char} (h : ¬(97 ≤ c.toNat ∧ c.toNat ≤ 122)) :
    upperChar c = c := by
  unfold upperChar
  rw [if_neg h]

/-- `upper` cannot produce a character below code point 65 (`'A'`) from a
different character; in particular hyphen (45) and space (32) are produced
only from themselves. -/
theorem upperChar_eq_iff_of_lt {c t : Char} (ht : t.toNat < 65) :
    upperChar c = t ↔ c = t := by
  constructor
  · intro h
    have h' := congrArg Char.toNat h
    rw [upperChar_toNat] at h'
    apply charToNat_inj
    split at h' <;> omega
  · rintro rfl
    exact upperChar_eq_self (by omega)

theorem upperChar_of_digit {c : Char} (h : isDigitChar c = true) : upperChar c = c := by
  have h' : 48 ≤ c.toNat ∧ c.toNat ≤ 57 := by
    simpa [isDigitChar, Bool.and_eq_true, decide_eq_true_iff] using h
  exact upperChar_eq_self (by omega)

/-! ### Normalization lemmas (claims C6 and C8) -/

theorem normalize_eq_filter_map (s : List Char) :
    normalize_isbn s = (s.filter (fun c => !(c = '-' || c = ' '))).map upperChar := by
  unfold normalize_isbn pyUpper removeChar
  congr 1
  rw [List.filter_filter]
  apply List.filter_congr
  intro a _
  by_cases h1 : a = '-' <;> by_cases h2 : a = ' ' <;> simp [h1, h2]

theorem mem_normalize {c : Char} {s : List Char} (h : c ∈ normalize_isbn s) :
    c ≠ '-' ∧ c ≠ ' ' ∧ upperChar c = c := by
  rw [normalize_eq_filter_map] at h
  obtain ⟨b, hb, rfl⟩ := List.mem_map.1 h
  have hbf := (List.mem_filter.1 hb).2
  have hb1 : b ≠ '-' := by
    intro hEq
    subst hEq
    simp at hbf
  have hb2 : b ≠ ' ' := by
    intro hEq
    subst hEq
    simp at hbf
  refine ⟨?_, ?_, upperChar_idem b⟩
  · intro hEq
    exact hb1 ((upperChar_eq_iff_of_lt (by decide)).1 hEq)
  · intro hEq
    exact hb2 ((upperChar_eq_iff_of_lt (by decide)).1 hEq)

theorem normalize_fix {l : List Char}
    (h : ∀ c ∈ l, c ≠ '-' ∧ c ≠ ' ' ∧ upperChar c = c) : normalize_isbn l = l := by
  rw [normalize_eq_filter_map]
  have hf : l.filter (fun c => !(c = '-' || c = ' ')) = l := by
    apply List.filter_eq_self.2
    intro a ha
    have := h a ha
    simp [this.1, this.2.1]
  rw [hf]
  have hm : l.map upperChar = l.map id := by
    apply List.map_congr_left
    intro a ha
    exact (h a ha).2.2
  rw [hm, List.map_id]

theorem normalize_isbn_idem (s : List Char) :
    normalize_isbn (normalize_isbn s) = normalize_isbn s :=
  normalize_fix (fun _ hc => mem_normalize hc)

theorem is_valid_isbn10_normalize (s : List Char) :
    is_valid_isbn10 (normalize_isbn s) = is_valid_isbn10 s := by
  unfold is_valid_isbn10
  rw [normalize_isbn_idem]

theorem is_valid_isbn13_normalize (s : List Char) :
    is_valid_isbn13 (normalize_isbn s) = is_valid_isbn13 s := by
  unfold is_valid_isbn13
  rw [normalize_isbn_idem]

/-! ### Indexed-access helpers -/

theorem getD_of_lt {α : Type} (l : List α) {k : Nat} (d : α) (h : k < l.length) :
    l.getD k d = l[k] := by
  simp [List.getD_eq_getElem?_getD, List.getElem?_eq_getElem h]

theorem getD_append_left {α : Type} (l r : List α) {k : Nat} (d : α)
    (h : k < l.length) : (l ++ r).getD k d = l.getD k d := by
  simp [List.getD_eq_getElem?_getD, List.getElem?_append_left h]

theorem getD_concat_length {α : Type} (l : List α) (c d : α) :
    (l ++ [c]).getD l.length d = c := by
  simp [List.getD_eq_getElem?_getD, List.getElem?_append_right (Nat.le_refl l.length)]

theorem getD_take {α : Type} (l : List α) {k m : Nat} (d : α) (h : k < m) :
    (l.take m).getD k d = l.getD k d := by
  simp [List.getD_eq_getElem?_getD, List.getElem?_take_of_lt h]

theorem getD_drop {α : Type} (l : List α) (m k : Nat) (d : α) :
    (l.drop m).getD k d = l.getD (m + k) d := by
  simp [List.getD_eq_getElem?_getD]

theorem getD_set_self {α : Type} (l : List α) {a : Nat} (x d : α) (h : a < l.length) :
    (l.set a x).getD a d = x := by
  simp [List.getD_eq_getElem?_getD, List.getElem?_set_self h]

theorem getD_set_ne {α : Type} (l : List α) {a b : Nat} (x d : α) (h : a ≠ b) :
    (l.set a x).getD b d = l.getD b d := by
  simp [List.getD_eq_getElem?_getD, List.getElem?_set_ne h]

theorem getD_mem {α : Type} (l : List α) {k : Nat} (d : α) (h : k < l.length) :
    l.getD k d ∈ l := by
  rw [getD_of_lt l d h]
  exact List.getElem_mem h

theorem all_iff_getD {α : Type} {l : List α} {p : α → Bool} (d : α) :
    l.all p = true ↔ ∀ k, k < l.length → p (l.getD k d) = true := by
  rw [List.all_eq_true]
  constructor
  · intro h k hk
    exact h _ (getD_mem l d hk)
  · intro h a ha
    obtain ⟨n, hn, rfl⟩ := List.mem_iff_getElem.1 ha
    rw [← getD_of_lt l d hn]
    exact h n hn

/-! ### Characterizations of the validators -/

theorem isDigitChar_iff {c : Char} :
    isDigitChar c = true ↔ 48 ≤ c.toNat ∧ c.toNat ≤ 57 := by
  simp [isDigitChar]

theorem digitVal_le9 {c : Char} (h : isDigitChar c = true) : digitVal c ≤ 9 := by
  have := isDigitChar_iff.1 h
  unfold digitVal
  omega

theorem regexIsbn10_iff {n : List Char} :
    regexIsbn10 n = true ↔
      (n.length = 10 ∨ (n.length = 11 ∧ n.getD 10 '0' = '\n')) ∧
        (∀ k, k < 9 → isDigitChar (n.getD k '0') = true) ∧
        (isDigitChar (n.getD 9 '0') = true ∨ n.getD 9 '0' = 'X') := by
  unfold regexIsbn10
  simp only [Bool.and_eq_true, beq_iff_eq, Bool.or_eq_true]
  constructor
  · rintro ⟨⟨hlen, hall⟩, hlast⟩
    have h10 : 10 ≤ n.length := by rcases hlen with h | ⟨h, _⟩ <;> omega
    refine ⟨hlen, ?_, hlast⟩
    intro k hk
    have h9 : k < (n.take 9).length := by
      simp [List.length_take]
      omega
    have := (all_iff_getD '0').1 hall k h9
    rwa [getD_take n '0' hk] at this
  · rintro ⟨hlen, hdigs, hlast⟩
    refine ⟨⟨hlen, ?_⟩, hlast⟩
    apply (all_iff_getD '0').2
    intro k hk
    have hk9 : k < 9 := by
      simp [List.length_take] at hk
      omega
    rw [getD_take n '0' hk9]
    exact hdigs k hk9

theorem regexIsbn13_iff {n : List Char} :
    regexIsbn13 n = true ↔
      (n.length = 13 ∨ (n.length = 14 ∧ n.getD 13 '0' = '\n')) ∧
        ∀ k, k < 13 → isDigitChar (n.getD k '0') = true := by
  unfold regexIsbn13
  simp only [Bool.and_eq_true, beq_iff_eq, Bool.or_eq_true]
  constructor
  · rintro ⟨hlen, hall⟩
    have h13 : 13 ≤ n.length := by rcases hlen with h | ⟨h, _⟩ <;> omega
    refine ⟨hlen, ?_⟩
    intro k hk
    have h' : k < (n.take 13).length := by
      simp [List.length_take]
      omega
    have := (all_iff_getD '0').1 hall k h'
    rwa [getD_take n '0' hk] at this
  · rintro ⟨hlen, hdigs⟩
    refine ⟨hlen, ?_⟩
    apply (all_iff_getD '0').2
    intro k hk
    have hk13 : k < 13 := by
      simp [List.length_take] at hk
      omega
    rw [getD_take n '0' hk13]
    exact hdigs k hk13

theorem valid10_iff {s : List Char} :
    is_valid_isbn10 s = true ↔
      regexIsbn10 (normalize_isbn s) = true ∧
        isbn10total (normalize_isbn s) % 11 = 0 := by
  unfold is_valid_isbn10
  simp [Bool.and_eq_true]

theorem valid13_iff {s : List Char} :
    is_valid_isbn13 s = true ↔
      regexIsbn13 (normalize_isbn s) = true ∧
        (10 - isbn13core (normalize_isbn s) % 10) % 10 =
          digitVal ((normalize_isbn s).getD 12 '0') := by
  unfold is_valid_isbn13
  simp [Bool.and_eq_true]

/-- The ISBN-13 check equation in balanced form: with `d ≤ 9` the source's
`(10 - total % 10) % 10 == d` is the same as `(total + d) % 10 == 0`. -/
theorem check13_balanced {S d : Nat} (hd : d ≤ 9) :
    (10 - S % 10) % 10 = d ↔ (S + d) % 10 = 0 := by
  omega

/-! ### Digit characters and fixpoints of normalization -/

theorem ne_of_toNat_ne {a b : Char} (h : a.toNat ≠ b.toNat) : a ≠ b :=
  fun hEq => h (congrArg Char.toNat hEq)

theorem digitChar_spec : ∀ k, k < 10 →
    isDigitChar (Nat.digitChar k) = true ∧ (Nat.digitChar k).toNat = 48 + k := by
  decide

theorem digitChar_digitVal {c : Char} (h : isDigitChar c = true) :
    Nat.digitChar (digitVal c) = c := by
  have hb := isDigitChar_iff.1 h
  apply charToNat_inj
  rw [(digitChar_spec (digitVal c) (by unfold digitVal; omega)).2]
  unfold digitVal
  omega

theorem digitVal_digitChar {k : Nat} (h : k < 10) :
    digitVal (Nat.digitChar k) = k := by
  unfold digitVal
  rw [(digitChar_spec k h).2]
  omega

/-- A string made of digits, `'X'` and newlines is a fixpoint of
normalization (none of them is a hyphen or a space, and none is a
lower-case letter). -/
theorem normalize_fix_digitX {l : List Char}
    (h : ∀ c ∈ l, isDigitChar c = true ∨ c = 'X' ∨ c = '\n') :
    normalize_isbn l = l := by
  apply normalize_fix
  intro c hc
  rcases h c hc with hd | hX | hN
  · have hb := isDigitChar_iff.1 hd
    have h45 : ('-').toNat = 45 := by decide
    have h32 : (' ').toNat = 32 := by decide
    exact ⟨ne_of_toNat_ne (by omega), ne_of_toNat_ne (by omega),
      upperChar_eq_self (by omega)⟩
  · subst hX
    exact ⟨by decide, by decide, by decide⟩
  · subst hN
    exact ⟨by decide, by decide, by decide⟩

/-! ### Congruence of the checksum sums in their relevant window -/

theorem isbn10core_congr {l₁ l₂ : List Char}
    (h : ∀ k, k < 9 → l₁.getD k '0' = l₂.getD k '0') :
    isbn10core l₁ = isbn10core l₂ := by
  unfold isbn10core
  exact Finset.sum_congr rfl (fun i hi => by rw [h i (Finset.mem_range.1 hi)])

theorem isbn13core_congr {l₁ l₂ : List Char}
    (h : ∀ k, k < 12 → l₁.getD k '0' = l₂.getD k '0') :
    isbn13core l₁ = isbn13core l₂ := by
  unfold isbn13core
  exact Finset.sum_congr rfl (fun i hi => by rw [h i (Finset.mem_range.1 hi)])

/-! ### Decomposition helpers -/

theorem getD_dropLast {α : Type} (l : List α) {k : Nat} (d : α)
    (h : k < l.length - 1) : l.dropLast.getD k d = l.getD k d := by
  rw [List.dropLast_eq_take]
  exact getD_take l d h

theorem eq_dropLast_concat {α : Type} {l : List α} {m : Nat} (d : α)
    (h : l.length = m + 1) : l = l.dropLast ++ [l.getD m d] := by
  have hne : l ≠ [] := by
    intro hEq
    rw [hEq] at h
    simp at h
  have hLast : l.getLast hne = l.getD m d := by
    rw [List.getLast_eq_getElem, getD_of_lt l d (by omega)]
    congr 1
    omega
  rw [← hLast]
  exact (List.dropLast_concat_getLast hne).symm

theorem mem_digit_of_getD {stem : List Char} {m : Nat} (hlen : stem.length = m)
    (hdig : ∀ k, k < m → isDigitChar (stem.getD k '0') = true) :
    ∀ ch ∈ stem, isDigitChar ch = true := by
  intro ch hch
  obtain ⟨n, hn, rfl⟩ := List.mem_iff_getElem.1 hch
  rw [← getD_of_lt stem '0' hn]
  exact hdig n (by omega)

/-- Building an ISBN-13 from a nine-digit stem the way `to_isbn13` does
produces a valid, normalization-fixed, 13-digit string starting with
`"978"` whose `[3:-1]` slice is the stem again. -/
theorem build13_props {stem : List Char} (hlen : stem.length = 9)
    (hdig : ∀ k, k < 9 → isDigitChar (stem.getD k '0') = true)
    {c : Nat} {t : List Char}
    (hc : c = (10 - isbn13core ('9' :: '7' :: '8' :: stem) % 10) % 10)
    (ht : t = ('9' :: '7' :: '8' :: stem) ++ [Nat.digitChar c]) :
    is_valid_isbn13 t = true ∧ normalize_isbn t = t ∧ t.length = 13 ∧
      (∀ ch ∈ t, isDigitChar ch = true) ∧
      t.take 3 = ['9', '7', '8'] ∧ (t.drop 3).dropLast = stem := by
  have hp12len : ('9' :: '7' :: '8' :: stem).length = 12 := by simp [hlen]
  have hc10 : c < 10 := by omega
  have hstemMem := mem_digit_of_getD hlen hdig
  have htDig : ∀ ch ∈ t, isDigitChar ch = true := by
    intro ch hch
    rw [ht] at hch
    simp only [List.cons_append, List.mem_cons, List.mem_append,
      List.mem_singleton, List.not_mem_nil, or_false] at hch
    rcases hch with rfl | rfl | rfl | hch | rfl
    · decide
    · decide
    · decide
    · exact hstemMem _ hch
    · exact (digitChar_spec c hc10).1
  have hnorm : normalize_isbn t = t :=
    normalize_fix_digitX (fun ch hch => Or.inl (htDig ch hch))
  have htlen : t.length = 13 := by rw [ht]; simp [hlen]
  have hagree : ∀ k, k < 12 → t.getD k '0' = ('9' :: '7' :: '8' :: stem).getD k '0' := by
    intro k hk
    rw [ht]
    exact getD_append_left _ _ '0' (by omega)
  have ht12 : t.getD 12 '0' = Nat.digitChar c := by
    rw [ht]
    have h := getD_concat_length ('9' :: '7' :: '8' :: stem) (Nat.digitChar c) '0'
    rwa [hp12len] at h
  have hvalid : is_valid_isbn13 t = true := by
    apply valid13_iff.2
    rw [hnorm]
    refine ⟨?_, ?_⟩
    · apply regexIsbn13_iff.2
      exact ⟨Or.inl htlen,
        fun k hk => htDig _ (getD_mem t '0' (by omega))⟩
    · rw [ht12, digitVal_digitChar hc10, isbn13core_congr hagree]
      exact hc.symm
  have htake : t.take 3 = ['9', '7', '8'] := by
    rw [ht]
    rfl
  have hdrop : (t.drop 3).dropLast = stem := by
    rw [ht]
    show (stem ++ [Nat.digitChar c]).dropLast = stem
    exact List.dropLast_concat
  exact ⟨hvalid, hnorm, htlen, htDig, htake, hdrop⟩

/-- Building an ISBN-10 from a nine-digit stem the way `to_isbn10` does
produces a valid, normalization-fixed string whose `dropLast` is the stem
again. -/
theorem build10_props {stem : List Char} (hlen : stem.length = 9)
    (hdig : ∀ k, k < 9 → isDigitChar (stem.getD k '0') = true)
    {cv : Nat} {u : List Char}
    (hcv : cv = (11 - isbn10core stem % 11) % 11)
    (hu : u = stem ++ [if cv = 10 then 'X' else Nat.digitChar cv]) :
    is_valid_isbn10 u = true ∧ normalize_isbn u = u ∧ u.dropLast = stem := by
  have hcv11 : cv < 11 := by omega
  have hstemMem := mem_digit_of_getD hlen hdig
  have hrProp : isDigitChar (if cv = 10 then 'X' else Nat.digitChar cv) = true ∨
      (if cv = 10 then 'X' else Nat.digitChar cv) = 'X' := by
    split
    · exact Or.inr rfl
    · next hne => exact Or.inl (digitChar_spec cv (by omega)).1
  have huMem : ∀ ch ∈ u, isDigitChar ch = true ∨ ch = 'X' := by
    intro ch hch
    rw [hu] at hch
    rcases List.mem_append.1 hch with hch | hch
    · exact Or.inl (hstemMem _ hch)
    · rw [List.mem_singleton.1 hch]
      exact hrProp
  have hnorm : normalize_isbn u = u :=
    normalize_fix_digitX
      (fun ch hch => (huMem ch hch).elim Or.inl (fun hx => Or.inr (Or.inl hx)))
  have hulen : u.length = 10 := by rw [hu]; simp [hlen]
  have hagree : ∀ k, k < 9 → u.getD k '0' = stem.getD k '0' := by
    intro k hk
    rw [hu]
    exact getD_append_left _ _ '0' (by omega)
  have hu9 : u.getD 9 '0' = (if cv = 10 then 'X' else Nat.digitChar cv) := by
    rw [hu]
    have h := getD_concat_length stem (if cv = 10 then 'X' else Nat.digitChar cv) '0'
    rwa [hlen] at h
  have hregex : regexIsbn10 u = true := by
    apply regexIsbn10_iff.2
    refine ⟨Or.inl hulen, ?_, ?_⟩
    · intro k hk
      rw [hagree k hk]
      exact hdig k hk
    · rw [hu9]
      rcases hrProp with hd | hX
      · exact Or.inl hd
      · exact Or.inr hX
  have htot : isbn10total u % 11 = 0 := by
    unfold isbn10total
    rw [isbn10core_congr hagree]
    by_cases hcv10 : cv = 10
    · have h9X : u.getD 9 '0' = 'X' := by rw [hu9, if_pos hcv10]
      rw [h9X, if_pos rfl]
      omega
    · have h9d : u.getD 9 '0' = Nat.digitChar cv := by rw [hu9, if_neg hcv10]
      have hXv : ('X').toNat = 88 := by decide
      have hne : Nat.digitChar cv ≠ 'X' := by
        apply ne_of_toNat_ne
        rw [(digitChar_spec cv (by omega)).2]
        omega
      rw [h9d, if_neg hne, digitVal_digitChar (by omega)]
      omega
  refine ⟨valid10_iff.2 ⟨by rwa [hnorm], by rwa [hnorm]⟩, hnorm, ?_⟩
  rw [hu]
  exact List.dropLast_concat

/-! ### Unfolding the converters under their preconditions -/

theorem to_isbn13_eq_some {s : List Char} (h : is_valid_isbn10 s = true) :
    to_isbn13 s = some (('9' :: '7' :: '8' :: (normalize_isbn s).dropLast) ++
      [Nat.digitChar
        ((10 - isbn13core ('9' :: '7' :: '8' :: (normalize_isbn s).dropLast) % 10)
          % 10)]) := by
  simp only [to_isbn13]
  rw [is_valid_isbn10_normalize s, h]
  rfl

theorem to_isbn10_eq_some {s : List Char} (h : is_valid_isbn13 s = true)
    (h978 : (normalize_isbn s).take 3 = ['9', '7', '8']) :
    to_isbn10 s = some (((normalize_isbn s).drop 3).dropLast ++
      [if (11 - isbn10core (((normalize_isbn s).drop 3).dropLast) % 11) % 11 = 10
        then 'X'
        else Nat.digitChar
          ((11 - isbn10core (((normalize_isbn s).drop 3).dropLast) % 11) % 11)]) := by
  simp only [to_isbn10]
  rw [is_valid_isbn13_normalize s, h, if_pos rfl, if_pos h978]

theorem to_isbn13_eq_none {s : List Char} (h : is_valid_isbn10 s = false) :
    to_isbn13 s = none := by
  simp only [to_isbn13]
  rw [is_valid_isbn10_normalize s, h]
  rfl

/-! ### Stem facts extracted from validity -/

theorem valid10_stem {s : List Char} (h : is_valid_isbn10 s = true)
    (hexact : (normalize_isbn s).length = 10) :
    (normalize_isbn s).dropLast.length = 9 ∧
      ∀ k, k < 9 → isDigitChar ((normalize_isbn s).dropLast.getD k '0') = true := by
  obtain ⟨hreg, _⟩ := valid10_iff.1 h
  obtain ⟨_, hdig, _⟩ := regexIsbn10_iff.1 hreg
  constructor
  · simp [hexact]
  · intro k hk
    rw [getD_dropLast _ '0' (by rw [hexact]; omega)]
    exact hdig k hk

theorem valid13_stem {s : List Char} (h : is_valid_isbn13 s = true)
    (hexact : (normalize_isbn s).length = 13) :
    ((normalize_isbn s).drop 3).dropLast.length = 9 ∧
      (∀ k, k < 9 →
        isDigitChar (((normalize_isbn s).drop 3).dropLast.getD k '0') = true) ∧
      ∀ k, k < 9 →
        ((normalize_isbn s).drop 3).dropLast.getD k '0' =
          (normalize_isbn s).getD (3 + k) '0' := by
  obtain ⟨hreg, _⟩ := valid13_iff.1 h
  obtain ⟨_, hdig⟩ := regexIsbn13_iff.1 hreg
  have hagree : ∀ k, k < 9 →
      ((normalize_isbn s).drop 3).dropLast.getD k '0' =
        (normalize_isbn s).getD (3 + k) '0' := by
    intro k hk
    rw [getD_dropLast _ '0' (by simp [hexact]; omega), getD_drop]
  refine ⟨by simp [hexact], ?_, hagree⟩
  intro k hk
  rw [hagree k hk]
  exact hdig (3 + k) (by omega)

/-! ### The round trips -/

set_option maxHeartbeats 1600000 in
theorem round_trip_10 {s : List Char} (h : is_valid_isbn10 s = true)
    (hexact : (normalize_isbn s).length = 10) :
    (to_isbn13 s).bind to_isbn10 = some (normalize_isbn s) := by
  obtain ⟨hslen, hsdig⟩ := valid10_stem h hexact
  obtain ⟨hval13, hnorm13, _, _, htake, hdrop⟩ := build13_props hslen hsdig rfl rfl
  rw [to_isbn13_eq_some h, Option.some_bind]
  have htake' := htake
  rw [← hnorm13] at htake'
  rw [to_isbn10_eq_some hval13 htake']
  rw [hnorm13, hdrop]
  obtain ⟨hreg, htot⟩ := valid10_iff.1 h
  obtain ⟨_, _, hlast⟩ := regexIsbn10_iff.1 hreg
  have hcore : isbn10core ((normalize_isbn s).dropLast) =
      isbn10core (normalize_isbn s) :=
    isbn10core_congr (fun k hk => getD_dropLast _ '0' (by rw [hexact]; omega))
  have hdec := eq_dropLast_concat '0' (l := normalize_isbn s) (m := 9) (by omega)
  unfold isbn10total at htot
  congr 1
  rw [hcore]
  conv_rhs => rw [hdec]
  refine congrArg (fun z => (normalize_isbn s).dropLast ++ [z]) ?_
  by_cases hX : (normalize_isbn s).getD 9 '0' = 'X'
  · rw [if_pos hX] at htot
    rw [if_pos (by omega), hX]
  · rw [if_neg hX] at htot
    rcases hlast with hd | hd
    · have hdv : digitVal ((normalize_isbn s).getD 9 '0') ≤ 9 := digitVal_le9 hd
      rw [if_neg (by omega)]
      have hcv : (11 - isbn10core (normalize_isbn s) % 11) % 11 =
          digitVal ((normalize_isbn s).getD 9 '0') := by omega
      rw [hcv, digitChar_digitVal hd]
    · exact absurd hd hX

set_option maxHeartbeats 1600000 in
theorem round_trip_13 {s : List Char} (h : is_valid_isbn13 s = true)
    (hexact : (normalize_isbn s).length = 13)
    (h978 : (normalize_isbn s).take 3 = ['9', '7', '8']) :
    (to_isbn10 s).bind to_isbn13 = some (normalize_isbn s) := by
  obtain ⟨hslen, hsdig, hsagree⟩ := valid13_stem h hexact
  obtain ⟨hval10, hnorm10, hdropL⟩ := build10_props hslen hsdig rfl rfl
  rw [to_isbn10_eq_some h h978, Option.some_bind]
  rw [to_isbn13_eq_some hval10, hnorm10, hdropL]
  obtain ⟨hreg13, hchk⟩ := valid13_iff.1 h
  obtain ⟨_, hdig⟩ := regexIsbn13_iff.1 hreg13
  -- the first three characters are '9', '7', '8'
  have hn3 : ∀ k, k < 3 → (normalize_isbn s).getD k '0' = ['9', '7', '8'].getD k '0' := by
    intro k hk
    rw [← h978, getD_take _ '0' hk]
  -- the twelve-character prefixes agree
  have hagree12 : ∀ k, k < 12 →
      ('9' :: '7' :: '8' :: ((normalize_isbn s).drop 3).dropLast).getD k '0' =
        (normalize_isbn s).getD k '0' := by
    intro k hk
    match k with
    | 0 => rw [hn3 0 (by omega)]; rfl
    | 1 => rw [hn3 1 (by omega)]; rfl
    | 2 => rw [hn3 2 (by omega)]; rfl
    | (j + 3) =>
      have hstep : ('9' :: '7' :: '8' :: ((normalize_isbn s).drop 3).dropLast).getD (j + 3) '0' =
          ((normalize_isbn s).drop 3).dropLast.getD j '0' := by
        show (('7' :: '8' :: ((normalize_isbn s).drop 3).dropLast).getD (j + 2) '0') = _
        show (('8' :: ((normalize_isbn s).drop 3).dropLast).getD (j + 1) '0') = _
        exact List.getD_cons_succ
      rw [hstep, hsagree j (by omega)]
      congr 1
      omega
  have hcore : isbn13core ('9' :: '7' :: '8' :: ((normalize_isbn s).drop 3).dropLast) =
      isbn13core (normalize_isbn s) := isbn13core_congr hagree12
  -- the reconstructed check digit is the original thirteenth character
  have hd12 : isDigitChar ((normalize_isbn s).getD 12 '0') = true :=
    hdig 12 (by omega)
  have hc' : (10 - isbn13core ('9' :: '7' :: '8' :: ((normalize_isbn s).drop 3).dropLast)
      % 10) % 10 = digitVal ((normalize_isbn s).getD 12 '0') := by
    rw [hcore]
    exact hchk
  -- decompose the original string as prefix ++ [check digit]
  have hdec : normalize_isbn s =
      ('9' :: '7' :: '8' :: ((normalize_isbn s).drop 3).dropLast) ++
        [(normalize_isbn s).getD 12 '0'] := by
    have hsplit : normalize_isbn s =
        (normalize_isbn s).take 3 ++ (normalize_isbn s).drop 3 :=
      (List.take_append_drop 3 (normalize_isbn s)).symm
    have hdroplen : ((normalize_isbn s).drop 3).length = 10 := by simp [hexact]
    have hdrop9 : ((normalize_isbn s).drop 3).getD 9 '0' =
        (normalize_isbn s).getD 12 '0' := by
      rw [getD_drop]
    have hdropdec := eq_dropLast_concat '0' (l := (normalize_isbn s).drop 3) (m := 9)
      (by omega)
    conv_lhs => rw [hsplit, h978, hdropdec, hdrop9]
    rfl
  conv_rhs => rw [hdec]
  refine congrArg (fun z =>
    some (('9' :: '7' :: '8' :: ((normalize_isbn s).drop 3).dropLast) ++ [z])) ?_
  rw [hc', digitChar_digitVal hd12]

/-! ### `none` results of the converters and validity of their outputs -/

theorem to_isbn10_none_of_invalid {s : List Char} (h : is_valid_isbn13 s = false) :
    to_isbn10 s = none := by
  simp only [to_isbn10]
  rw [is_valid_isbn13_normalize s, h]
  rfl

theorem to_isbn10_none_of_not978 {s : List Char}
    (h978 : ¬(normalize_isbn s).take 3 = ['9', '7', '8']) : to_isbn10 s = none := by
  simp only [to_isbn10]
  split <;> simp [h978]

theorem to_isbn13_valid {s t : List Char} (h : to_isbn13 s = some t)
    (hexact : (normalize_isbn s).length = 10) :
    is_valid_isbn13 t = true ∧ t.length = 13 ∧ t.all isDigitChar = true := by
  have hv : is_valid_isbn10 s = true := by
    cases hb : is_valid_isbn10 s
    · rw [to_isbn13_eq_none hb] at h
      exact absurd h (by simp)
    · rfl
  obtain ⟨hslen, hsdig⟩ := valid10_stem hv hexact
  obtain ⟨hval13, _, htlen, htdig, _, _⟩ := build13_props hslen hsdig rfl rfl
  rw [to_isbn13_eq_some hv] at h
  obtain rfl := (Option.some_inj.1 h).symm
  exact ⟨hval13, htlen, List.all_eq_true.2 htdig⟩

theorem to_isbn10_valid {s t : List Char} (h : to_isbn10 s = some t)
    (hexact : (normalize_isbn s).length = 13) :
    is_valid_isbn10 t = true := by
  have hv : is_valid_isbn13 s = true := by
    cases hb : is_valid_isbn13 s
    · rw [to_isbn10_none_of_invalid hb] at h
      exact absurd h (by simp)
    · rfl
  by_cases h978 : (normalize_isbn s).take 3 = ['9', '7', '8']
  · obtain ⟨hslen, hsdig, _⟩ := valid13_stem hv hexact
    obtain ⟨hval10, _, _⟩ := build10_props hslen hsdig rfl rfl
    rw [to_isbn10_eq_some hv h978] at h
    obtain rfl := (Option.some_inj.1 h).symm
    exact hval10
  · rw [to_isbn10_none_of_not978 h978] at h
    exact absurd h (by simp)

theorem to_isbn10_none_iff {s : List Char} :
    to_isbn10 s = none ↔
      ¬(is_valid_isbn13 s = true ∧ (normalize_isbn s).take 3 = ['9', '7', '8']) := by
  constructor
  · intro h hcon
    rw [to_isbn10_eq_some hcon.1 hcon.2] at h
    exact absurd h (by simp)
  · intro h
    by_cases hv : is_valid_isbn13 s = true
    · exact to_isbn10_none_of_not978 (fun h978 => h ⟨hv, h978⟩)
    · exact to_isbn10_none_of_invalid (Bool.not_eq_true _ ▸ hv)

theorem to_isbn13_none_iff {s : List Char} :
    to_isbn13 s = none ↔ is_valid_isbn10 s = false := by
  constructor
  · intro h
    cases hb : is_valid_isbn10 s
    · rfl
    · rw [to_isbn13_eq_some hb] at h
      exact absurd h (by simp)
  · exact to_isbn13_eq_none

/-! ### Transpositions against the checksums -/

theorem length_listSwap (l : List Char) (i j : Nat) :
    (listSwap l i j).length = l.length := by
  simp [listSwap]

theorem mem_of_mem_listSwap {l : List Char} {i j : Nat} {ch : Char}
    (hi : i < l.length) (hj : j < l.length)
    (hch : ch ∈ listSwap l i j) : ch ∈ l := by
  unfold listSwap at hch
  rcases List.mem_or_eq_of_mem_set hch with hch' | rfl
  · rcases List.mem_or_eq_of_mem_set hch' with hch'' | rfl
    · exact hch''
    · exact getD_mem l '0' hj
  · exact getD_mem l '0' hi

theorem getD_listSwap (l : List Char) {i j : Nat} (k : Nat)
    (hi : i < l.length) (hj : j < l.length) :
    (listSwap l i j).getD k '0' =
      if k = j then l.getD i '0'
      else if k = i then l.getD j '0'
      else l.getD k '0' := by
  unfold listSwap
  by_cases hkj : k = j
  · subst hkj
    rw [if_pos rfl, getD_set_self _ _ '0' (by simpa using hj)]
  · rw [if_neg hkj, getD_set_ne _ _ '0' (fun h => hkj h.symm)]
    by_cases hki : k = i
    · subst hki
      rw [if_pos rfl, getD_set_self _ _ '0' hi]
    · rw [if_neg hki, getD_set_ne _ _ '0' (fun h => hki h.symm)]

/-- Exchanging two entries changes an indexed sum by the four exchanged
terms. -/
theorem sum_swap_delta (g : Nat → Char → ℤ) (l : List Char) {i j n : Nat}
    (hi : i < l.length) (hj : j < l.length) (hij : i ≠ j)
    (hin : i < n) (hjn : j < n) :
    (∑ k ∈ Finset.range n, g k ((listSwap l i j).getD k '0')) =
      (∑ k ∈ Finset.range n, g k (l.getD k '0'))
        - g i (l.getD i '0') - g j (l.getD j '0')
        + g i (l.getD j '0') + g j (l.getD i '0') := by
  have hpt : ∀ k ∈ Finset.range n,
      g k ((listSwap l i j).getD k '0') =
        g k (l.getD k '0')
          + (if k = i then g i (l.getD j '0') - g i (l.getD i '0') else 0)
          + (if k = j then g j (l.getD i '0') - g j (l.getD j '0') else 0) := by
    intro k _
    rw [getD_listSwap l k hi hj]
    by_cases hkj : k = j
    · subst hkj
      rw [if_pos rfl, if_pos rfl, if_neg (fun h => hij h.symm)]
      ring
    · rw [if_neg hkj, if_neg hkj]
      by_cases hki : k = i
      · subst hki
        rw [if_pos rfl, if_pos rfl]
        ring
      · rw [if_neg hki, if_neg hki]
        ring
  rw [Finset.sum_congr rfl hpt, Finset.sum_add_distrib, Finset.sum_add_distrib,
    Finset.sum_ite_eq' (Finset.range n) i, Finset.sum_ite_eq' (Finset.range n) j,
    if_pos (Finset.mem_range.2 hin), if_pos (Finset.mem_range.2 hjn)]
  ring

/-- The ISBN-10 total as one uniformly weighted sum over ℤ (the check
character at position 9 carries weight `10 − 9 = 1`). -/
theorem isbn10total_cast {n : List Char}
    (hdig : ∀ k, k < 9 → isDigitChar (n.getD k '0') = true) :
    (isbn10total n : ℤ) =
      ∑ k ∈ Finset.range 10, (10 - (k : ℤ)) *
        (if n.getD k '0' = 'X' then (10 : ℤ) else (digitVal (n.getD k '0') : ℤ)) := by
  have hA : ((isbn10core n : Nat) : ℤ) =
      ∑ k ∈ Finset.range 9, (10 - (k : ℤ)) *
        (if n.getD k '0' = 'X' then (10 : ℤ)
          else (digitVal (n.getD k '0') : ℤ)) := by
    unfold isbn10core
    rw [Nat.cast_sum]
    apply Finset.sum_congr rfl
    intro k hk
    have hk9 := Finset.mem_range.1 hk
    have hd := hdig k hk9
    have hb := isDigitChar_iff.1 hd
    have hX : ('X').toNat = 88 := by decide
    have hne : n.getD k '0' ≠ 'X' := ne_of_toNat_ne (by omega)
    rw [if_neg hne, Nat.cast_mul, Nat.cast_sub (by omega : k ≤ 10)]
    push_cast
    ring
  have hB : (((if n.getD 9 '0' = 'X' then (10 : Nat)
        else digitVal (n.getD 9 '0')) : Nat) : ℤ) =
      (10 - ((9 : Nat) : ℤ)) *
        (if n.getD 9 '0' = 'X' then (10 : ℤ)
          else (digitVal (n.getD 9 '0') : ℤ)) := by
    split <;> norm_num
  unfold isbn10total
  conv_rhs => rw [Finset.sum_range_succ]
  rw [Nat.cast_add, hA, hB]

/-- The ISBN-13 check total (twelve weighted digits plus the check digit)
as one uniformly weighted sum over ℤ (position 12 is even, weight 1). -/
theorem isbn13check_cast (n : List Char) :
    (isbn13core n : ℤ) + (digitVal (n.getD 12 '0') : ℤ) =
      ∑ k ∈ Finset.range 13,
        (if k % 2 = 0 then (1 : ℤ) else 3) * (digitVal (n.getD k '0') : ℤ) := by
  have hA : ((isbn13core n : Nat) : ℤ) =
      ∑ k ∈ Finset.range 12,
        (if k % 2 = 0 then (1 : ℤ) else 3) * (digitVal (n.getD k '0') : ℤ) := by
    unfold isbn13core
    rw [Nat.cast_sum]
    apply Finset.sum_congr rfl
    intro k _
    rw [Nat.cast_mul]
    split_ifs <;> push_cast <;> ring
  conv_rhs => rw [Finset.sum_range_succ]
  rw [hA]
  norm_num

theorem digitVal_ne_of_digits_ne {a b : Char} (ha : isDigitChar a = true)
    (hb : isDigitChar b = true) (hne : a ≠ b) : digitVal a ≠ digitVal b := by
  have ha' := isDigitChar_iff.1 ha
  have hb' := isDigitChar_iff.1 hb
  intro hEq
  apply hne
  apply charToNat_inj
  unfold digitVal at hEq
  omega

/-- Transposing two distinct digits anywhere in a ten-character candidate
changes the ISBN-10 total by `(vj − vi)·(j − i) ≢ 0 (mod 11)`. -/
theorem isbn10total_swap_ne {n : List Char} (hlen : 10 ≤ n.length)
    (hdig : ∀ k, k < 9 → isDigitChar (n.getD k '0') = true)
    (htot : isbn10total n % 11 = 0)
    {i j : Nat} (hij : i < j) (hj : j < 10)
    (hdi : isDigitChar (n.getD i '0') = true)
    (hdj : isDigitChar (n.getD j '0') = true)
    (hne : n.getD i '0' ≠ n.getD j '0') :
    isbn10total (listSwap n i j) % 11 ≠ 0 := by
  have hiL : i < n.length := by omega
  have hjL : j < n.length := by omega
  have hdig' : ∀ k, k < 9 → isDigitChar ((listSwap n i j).getD k '0') = true := by
    intro k hk
    rw [getD_listSwap n k hiL hjL]
    split_ifs with h1 h2
    · exact hdi
    · exact hdj
    · exact hdig k hk
  have hc1 := isbn10total_cast hdig
  have hc2 := isbn10total_cast hdig'
  have hswap := sum_swap_delta
    (fun k d => (10 - (k : ℤ)) * (if d = 'X' then (10 : ℤ) else (digitVal d : ℤ)))
    n hiL hjL (by omega) (by omega : i < 10) hj
  have hX : ('X').toNat = 88 := by decide
  have hneiX : n.getD i '0' ≠ 'X' :=
    ne_of_toNat_ne (by have := isDigitChar_iff.1 hdi; omega)
  have hnejX : n.getD j '0' ≠ 'X' :=
    ne_of_toNat_ne (by have := isDigitChar_iff.1 hdj; omega)
  have hTM : (isbn10total (listSwap n i j) : ℤ) =
      (isbn10total n : ℤ) +
        ((digitVal (n.getD j '0') : ℤ) - (digitVal (n.getD i '0') : ℤ)) *
          ((j : ℤ) - (i : ℤ)) := by
    rw [hc2, hswap, ← hc1]
    simp only [if_neg hneiX, if_neg hnejX]
    ring
  have hvne : digitVal (n.getD i '0') ≠ digitVal (n.getD j '0') :=
    digitVal_ne_of_digits_ne hdi hdj hne
  have hvi := digitVal_le9 hdi
  have hvj := digitVal_le9 hdj
  have hnd : ¬ (11 : ℤ) ∣
      ((digitVal (n.getD j '0') : ℤ) - (digitVal (n.getD i '0') : ℤ)) *
        ((j : ℤ) - (i : ℤ)) := by
    intro hdvd
    have hp : Prime (11 : ℤ) := by norm_num
    rcases hp.2.2 _ _ hdvd with h | h <;> omega
  intro h0
  apply hnd
  have h1 : (11 : ℤ) ∣ (isbn10total n : ℤ) := by
    have : (11 : ℕ) ∣ isbn10total n := Nat.dvd_of_mod_eq_zero htot
    exact_mod_cast this
  have h2 : (11 : ℤ) ∣ (isbn10total (listSwap n i j) : ℤ) := by
    have : (11 : ℕ) ∣ isbn10total (listSwap n i j) := Nat.dvd_of_mod_eq_zero h0
    exact_mod_cast this
  omega

/-- Transposing two digits at positions of different parity whose values
differ mod 5 changes the ISBN-13 check total by `±2·(vi − vj) ≢ 0 (mod
10)`. -/
theorem isbn13check_swap_ne {n : List Char} (hlen : 13 ≤ n.length)
    (htot : (isbn13core n + digitVal (n.getD 12 '0')) % 10 = 0)
    {i j : Nat} (hij : i < j) (hj : j < 13) (hpar : i % 2 ≠ j % 2)
    (h5 : digitVal (n.getD i '0') % 5 ≠ digitVal (n.getD j '0') % 5) :
    (isbn13core (listSwap n i j) +
      digitVal ((listSwap n i j).getD 12 '0')) % 10 ≠ 0 := by
  have hiL : i < n.length := by omega
  have hjL : j < n.length := by omega
  have hc1 := isbn13check_cast n
  have hc2 := isbn13check_cast (listSwap n i j)
  have hswap := sum_swap_delta
    (fun k d => (if k % 2 = 0 then (1 : ℤ) else 3) * (digitVal d : ℤ))
    n hiL hjL (by omega) (by omega : i < 13) hj
  have hTM : (isbn13core (listSwap n i j) : ℤ) +
        (digitVal ((listSwap n i j).getD 12 '0') : ℤ) =
      ((isbn13core n : ℤ) + (digitVal (n.getD 12 '0') : ℤ)) +
        ((digitVal (n.getD i '0') : ℤ) - (digitVal (n.getD j '0') : ℤ)) *
          ((if j % 2 = 0 then (1 : ℤ) else 3) - (if i % 2 = 0 then (1 : ℤ) else 3)) := by
    rw [hc2, hswap, ← hc1]
    ring
  intro h0
  have h1 : (10 : ℤ) ∣ ((isbn13core n : ℤ) + (digitVal (n.getD 12 '0') : ℤ)) := by
    have : (10 : ℕ) ∣ (isbn13core n + digitVal (n.getD 12 '0')) :=
      Nat.dvd_of_mod_eq_zero htot
    exact_mod_cast this
  have h2 : (10 : ℤ) ∣ ((isbn13core (listSwap n i j) : ℤ) +
      (digitVal ((listSwap n i j).getD 12 '0') : ℤ)) := by
    have : (10 : ℕ) ∣ (isbn13core (listSwap n i j) +
        digitVal ((listSwap n i j).getD 12 '0')) :=
      Nat.dvd_of_mod_eq_zero h0
    exact_mod_cast this
  rcases Nat.even_or_odd i with hieven | hiodd
  · have hie : i % 2 = 0 := Nat.even_iff.1 hieven
    have hjo : j % 2 = 1 := by omega
    rw [if_pos hie, if_neg (by omega : ¬ j % 2 = 0)] at hTM
    omega
  · have hio : i % 2 = 1 := Nat.odd_iff.1 hiodd
    have hje : j % 2 = 0 := by omega
    rw [if_pos hje, if_neg (by omega : ¬ i % 2 = 0)] at hTM
    omega

/-- Any transposition of two distinct digit characters in the normalized
form of a valid ISBN-10 is rejected by the validator. -/
theorem transposition10_rejected {s : List Char} (h : is_valid_isbn10 s = true)
    {i j : Nat} (hij : i < j) (hj : j < 10)
    (hdi : isDigitChar ((normalize_isbn s).getD i '0') = true)
    (hdj : isDigitChar ((normalize_isbn s).getD j '0') = true)
    (hne : (normalize_isbn s).getD i '0' ≠ (normalize_isbn s).getD j '0') :
    is_valid_isbn10 (listSwap (normalize_isbn s) i j) = false := by
  obtain ⟨hreg, htot⟩ := valid10_iff.1 h
  obtain ⟨hlenD, hdig, hlast⟩ := regexIsbn10_iff.1 hreg
  have hlen10 : 10 ≤ (normalize_isbn s).length := by
    rcases hlenD with h' | ⟨h', _⟩ <;> omega
  have hcore := isbn10total_swap_ne hlen10 hdig htot hij hj hdi hdj hne
  have hallN : ∀ ch ∈ normalize_isbn s,
      isDigitChar ch = true ∨ ch = 'X' ∨ ch = '\n' := by
    intro ch hch
    obtain ⟨k, hk, rfl⟩ := List.mem_iff_getElem.1 hch
    rw [← getD_of_lt _ '0' hk]
    rcases Nat.lt_or_ge k 9 with hk9 | hk9
    · exact Or.inl (hdig k hk9)
    · rcases Nat.lt_or_ge k 10 with hk10 | hk10
      · have hk9' : k = 9 := by omega
        subst hk9'
        rcases hlast with hd | hX
        · exact Or.inl hd
        · exact Or.inr (Or.inl hX)
      · rcases hlenD with hl | ⟨hl, hnl⟩
        · omega
        · have hk10' : k = 10 := by omega
          subst hk10'
          exact Or.inr (Or.inr hnl)
  have hfix : normalize_isbn (listSwap (normalize_isbn s) i j) =
      listSwap (normalize_isbn s) i j :=
    normalize_fix_digitX
      (fun ch hch => hallN ch (mem_of_mem_listSwap (by omega) (by omega) hch))
  cases hb : is_valid_isbn10 (listSwap (normalize_isbn s) i j)
  · rfl
  · exfalso
    obtain ⟨_, htot'⟩ := valid10_iff.1 hb
    rw [hfix] at htot'
    exact hcore htot'

/-- A transposition of two digits at positions of different parity whose
values differ mod 5 in the normalized form of a valid ISBN-13 is rejected
by the validator. -/
theorem transposition13_rejected {s : List Char} (h : is_valid_isbn13 s = true)
    {i j : Nat} (hij : i < j) (hj : j < 13) (hpar : i % 2 ≠ j % 2)
    (h5 : digitVal ((normalize_isbn s).getD i '0') % 5 ≠
      digitVal ((normalize_isbn s).getD j '0') % 5) :
    is_valid_isbn13 (listSwap (normalize_isbn s) i j) = false := by
  obtain ⟨hreg, hchk⟩ := valid13_iff.1 h
  obtain ⟨hlenD, hdig⟩ := regexIsbn13_iff.1 hreg
  have hlen13 : 13 ≤ (normalize_isbn s).length := by
    rcases hlenD with h' | ⟨h', _⟩ <;> omega
  have hd12 : isDigitChar ((normalize_isbn s).getD 12 '0') = true :=
    hdig 12 (by omega)
  have htot : (isbn13core (normalize_isbn s) +
      digitVal ((normalize_isbn s).getD 12 '0')) % 10 = 0 :=
    (check13_balanced (digitVal_le9 hd12)).1 hchk
  have hcore := isbn13check_swap_ne hlen13 htot hij hj hpar h5
  have hallN : ∀ ch ∈ normalize_isbn s,
      isDigitChar ch = true ∨ ch = 'X' ∨ ch = '\n' := by
    intro ch hch
    obtain ⟨k, hk, rfl⟩ := List.mem_iff_getElem.1 hch
    rw [← getD_of_lt _ '0' hk]
    rcases Nat.lt_or_ge k 13 with hk13 | hk13
    · exact Or.inl (hdig k hk13)
    · rcases hlenD with hl | ⟨hl, hnl⟩
      · omega
      · have hk13' : k = 13 := by omega
        subst hk13'
        exact Or.inr (Or.inr hnl)
  have hfix : normalize_isbn (listSwap (normalize_isbn s) i j) =
      listSwap (normalize_isbn s) i j :=
    normalize_fix_digitX
      (fun ch hch => hallN ch (mem_of_mem_listSwap (by omega) (by omega) hch))
  cases hb : is_valid_isbn13 (listSwap (normalize_isbn s) i j)
  · rfl
  · exfalso
    obtain ⟨hreg', hchk'⟩ := valid13_iff.1 hb
    rw [hfix] at hreg' hchk'
    obtain ⟨_, hdig'⟩ := regexIsbn13_iff.1 hreg'
    have hd12' : isDigitChar ((listSwap (normalize_isbn s) i j).getD 12 '0') = true :=
      hdig' 12 (by omega)
    exact hcore ((check13_balanced (digitVal_le9 hd12')).1 hchk')

/-! ### Pipeline lemmas -/

/-- Every execution path of `process_single_isbn` stamps the raw input
string into the `"Input ISBN"` key (for the formatted path this happens
after formatting, overwriting whatever the formatter produced). -/
theorem process_inputIsbn {α : Type} (fetch : List Char → Option α)
    (fmt : α → List Char → Record) (isbn_raw preferred_api : List Char) :
    (process_single_isbn fetch fmt isbn_raw preferred_api).1.inputIsbn =
      some isbn_raw := by
  simp only [process_single_isbn]
  repeat' split
  all_goals rfl

/-- With the default source `"google"`, `process_single_isbn` queries the
metadata source exactly once when the normalized input validates as
ISBN-10 or ISBN-13 (passing the normalized identifier), and not at all
otherwise; on invalid input it returns the bare error record without any
call. -/
theorem process_calls {α : Type} (fetch : List Char → Option α)
    (fmt : α → List Char → Record) (isbn_raw : List Char) :
    ((is_valid_isbn13 (normalize_isbn isbn_raw) = false ∧
        is_valid_isbn10 (normalize_isbn isbn_raw) = false) →
      process_single_isbn fetch fmt isbn_raw ("google".toList) =
        ({ inputIsbn := some isbn_raw,
           error := some ("Invalid ISBN format".toList) }, [])) ∧
    ((is_valid_isbn13 (normalize_isbn isbn_raw) = true ∨
        is_valid_isbn10 (normalize_isbn isbn_raw) = true) →
      (process_single_isbn fetch fmt isbn_raw ("google".toList)).2 =
        [normalize_isbn isbn_raw]) := by
  have hg : (pyLower ("google".toList) == "google".toList) = true := by decide
  constructor
  · intro ⟨h13, h10⟩
    simp only [process_single_isbn]
    rw [h13, h10]
    rfl
  · intro hvalid
    simp only [process_single_isbn]
    have hcond : (is_valid_isbn13 (normalize_isbn isbn_raw) ||
        is_valid_isbn10 (normalize_isbn isbn_raw)) = true := by
      rcases hvalid with hv | hv <;> simp [hv]
    rw [hcond, hg]
    cases fetch (normalize_isbn isbn_raw)
    · rfl
    · rfl

/-! ### Scanner session lemmas -/

theorem isSentinel_iff {t : List Char} :
    isSentinel t = true ↔ pyUpper t = "QUITSCAN".toList := by
  simp [isSentinel]

theorem sessionRecords_line_cons (proc : List Char → Record) (t : List Char)
    (rest : List ScanEvent) (hs : isSentinel (pyStrip t) = false)
    (hne : (pyStrip t).isEmpty = false) :
    sessionRecords proc (ScanEvent.line t :: rest) =
      proc (pyStrip t) :: sessionRecords proc rest := by
  simp [sessionRecords, hs, hne]

theorem sessionRecords_line_empty (proc : List Char → Record) (t : List Char)
    (rest : List ScanEvent) (hs : isSentinel (pyStrip t) = false)
    (he : (pyStrip t).isEmpty = true) :
    sessionRecords proc (ScanEvent.line t :: rest) = sessionRecords proc rest := by
  simp [sessionRecords, hs, he]

/-- The loop stops at the first sentinel line: everything after it is
discarded, everything before it is processed as usual. -/
theorem sessionRecords_until_sentinel (proc : List Char → Record)
    (pre : List (List Char)) (q : List Char) (junk : List ScanEvent)
    (hpre : ∀ l ∈ pre, isSentinel (pyStrip l) = false)
    (hq : isSentinel (pyStrip q) = true) :
    sessionRecords proc (pre.map ScanEvent.line ++ ScanEvent.line q :: junk) =
      sessionRecords proc (pre.map ScanEvent.line) := by
  induction pre with
  | nil =>
    simp only [List.map_nil, List.nil_append]
    show sessionRecords proc (ScanEvent.line q :: junk) = []
    simp [sessionRecords, hq]
  | cons a as ih =>
    have ha := hpre a (by simp)
    have ih' := ih (fun l hl => hpre l (by simp [hl]))
    simp only [List.map_cons, List.cons_append]
    by_cases hae : (pyStrip a).isEmpty
    · simp [sessionRecords, ha, hae, ih']
    · simp [sessionRecords, ha, hae, ih']

/-- Because loading the prior records always fails (unbound `pd`), the
scanner run is insensitive to whatever the destination store holds. -/
theorem scanner_ignores_prior (proc : List Char → Record)
    (store : Option (List Record)) (events : List ScanEvent) :
    run_hid_scanner_mode proc store events =
      run_hid_scanner_mode proc none events := by
  unfold run_hid_scanner_mode loadExistingRecords mainModuleBindsPd
  cases store <;> rfl

/-! ### The claims -/

/-- C1 (amended): when acceptance does not rest on the regex's
trailing-newline allowance — the normalized form is exactly the
10-character (resp. 13-character) form — the codec round trips return the
NORMALIZED identifier, not the raw input: `to_isbn10 (to_isbn13 v) =
normalize_isbn v` for valid ISBN-10 `v`, and `to_isbn13 (to_isbn10 v) =
normalize_isbn v` for valid ISBN-13 `v` starting with "978".  Equality
with `v` itself holds only when `v` is already normalized, and inputs
accepted only because Python's `$` matches before one trailing newline do
not round-trip at all (see the counterexample). -/
theorem claim_C1_round_trip (s : List Char) :
    (is_valid_isbn10 s = true → (normalize_isbn s).length = 10 →
      (to_isbn13 s).bind to_isbn10 = some (normalize_isbn s)) ∧
    (is_valid_isbn13 s = true → (normalize_isbn s).length = 13 →
      (normalize_isbn s).take 3 = ['9', '7', '8'] →
      (to_isbn10 s).bind to_isbn13 = some (normalize_isbn s)) :=
  ⟨fun h hx => round_trip_10 h hx, fun h hx h978 => round_trip_13 h hx h978⟩

/-- C1 counterexample: the hyphenated string "0-306-40615-2" is accepted by
`is_valid_isbn10`, yet converting it to ISBN-13 and back yields the
normalized "0306406152", not the original string; symmetrically for the
hyphenated ISBN-13.  Moreover strings accepted only via the
`$`-before-trailing-newline allowance of Python's `re.match` round-trip
to nothing at all: "0306406152\n" is accepted, but the composed
conversion returns no result (to_isbn13 emits a malformed 14-character
string), and likewise for "9780306406157\n". -/
theorem claim_C1_counterexample :
    is_valid_isbn10 ("0-306-40615-2".toList) = true ∧
    (to_isbn13 ("0-306-40615-2".toList)).bind to_isbn10 ≠
      some ("0-306-40615-2".toList) ∧
    is_valid_isbn13 ("978-0-306-40615-7".toList) = true ∧
    (normalize_isbn ("978-0-306-40615-7".toList)).take 3 = ['9', '7', '8'] ∧
    (to_isbn10 ("978-0-306-40615-7".toList)).bind to_isbn13 ≠
      some ("978-0-306-40615-7".toList) ∧
    is_valid_isbn10 ("0306406152\n".toList) = true ∧
    (to_isbn13 ("0306406152\n".toList)).bind to_isbn10 = none ∧
    is_valid_isbn13 ("9780306406157\n".toList) = true ∧
    (normalize_isbn ("9780306406157\n".toList)).take 3 = ['9', '7', '8'] ∧
    (to_isbn10 ("9780306406157\n".toList)).bind to_isbn13 = none := by
  refine ⟨by decide, by decide, by decide, by decide, by decide, by decide,
    by decide, by decide, by decide, by decide⟩

/-- C1 witness: both round trips evaluated at concrete valid inputs. -/
theorem claim_C1_witness :
    (to_isbn13 ("0306406152".toList)).bind to_isbn10 =
      some (normalize_isbn ("0306406152".toList)) ∧
    (to_isbn10 ("9780306406157".toList)).bind to_isbn13 =
      some (normalize_isbn ("9780306406157".toList)) :=
  ⟨(claim_C1_round_trip _).1 (by decide) (by decide),
   (claim_C1_round_trip _).2 (by decide) (by decide) (by decide)⟩

/-- C2 (code bug): with an existing destination store holding one prior
record, an interactive session scanning one identifier then the sentinel
persists ONLY the session record — the prior record is lost, because
`pd.read_excel` at main.py line 182 hits the unbound name `pd` (pandas is
never imported in main.py) and the `except Exception` handler resets the
loaded list to empty.  The claim (prior ++ session, N+M records) describes
the intended behaviour, not the code's. -/
theorem claim_C2_prior_records_lost :
    run_hid_scanner_mode (fun s => { inputIsbn := some s })
        (some [{ title := some ("Prior".toList) }])
        [ScanEvent.line ("0306406152".toList),
         ScanEvent.line ("QUITSCAN".toList)] =
      some [{ inputIsbn := some ("0306406152".toList) }] ∧
    (some [({ inputIsbn := some ("0306406152".toList) } : Record)] ≠
      some [({ title := some ("Prior".toList) } : Record),
            { inputIsbn := some ("0306406152".toList) }]) := by
  refine ⟨by decide, by decide⟩

/-- C3 (amended): transposing two distinct digits of the normalized form of
a valid ISBN-10 always invalidates it; for a valid ISBN-13 a transposition
is guaranteed to invalidate only when the two positions carry different
weights (different parity) and the two digits are not congruent mod 5 — a
same-parity transposition can leave the string valid (see the
counterexample). -/
theorem claim_C3_transposition (s : List Char) (i j : Nat) :
    (is_valid_isbn10 s = true → i < j → j < 10 →
      isDigitChar ((normalize_isbn s).getD i '0') = true →
      isDigitChar ((normalize_isbn s).getD j '0') = true →
      (normalize_isbn s).getD i '0' ≠ (normalize_isbn s).getD j '0' →
      is_valid_isbn10 (listSwap (normalize_isbn s) i j) = false) ∧
    (is_valid_isbn13 s = true → i < j → j < 13 → i % 2 ≠ j % 2 →
      digitVal ((normalize_isbn s).getD i '0') % 5 ≠
        digitVal ((normalize_isbn s).getD j '0') % 5 →
      is_valid_isbn13 (listSwap (normalize_isbn s) i j) = false) :=
  ⟨fun h a b c d e => transposition10_rejected h a b c d e,
   fun h a b c d => transposition13_rejected h a b c d⟩

/-- C3 counterexample: "9780306406157" is a valid ISBN-13; transposing the
distinct digits '7' and '0' at the same-parity positions 1 and 3 gives
"9087306406157", which the validator still accepts. -/
theorem claim_C3_counterexample :
    is_valid_isbn13 ("9780306406157".toList) = true ∧
    listSwap (normalize_isbn ("9780306406157".toList)) 1 3 =
      "9087306406157".toList ∧
    isDigitChar ((normalize_isbn ("9780306406157".toList)).getD 1 '0') = true ∧
    isDigitChar ((normalize_isbn ("9780306406157".toList)).getD 3 '0') = true ∧
    (normalize_isbn ("9780306406157".toList)).getD 1 '0' ≠
      (normalize_isbn ("9780306406157".toList)).getD 3 '0' ∧
    is_valid_isbn13 (listSwap (normalize_isbn ("9780306406157".toList)) 1 3) =
      true := by
  refine ⟨by decide, by decide, by decide, by decide, by decide, by decide⟩

/-- C3 witness: a transposition in a concrete valid ISBN-10 and a
different-parity transposition in a concrete valid ISBN-13 are both
rejected. -/
theorem claim_C3_witness :
    is_valid_isbn10 (listSwap (normalize_isbn ("0306406152".toList)) 0 1) = false ∧
    is_valid_isbn13 (listSwap (normalize_isbn ("9780306406157".toList)) 0 1) =
      false :=
  ⟨(claim_C3_transposition ("0306406152".toList) 0 1).1 (by decide) (by decide)
      (by decide) (by decide) (by decide) (by decide),
   (claim_C3_transposition ("9780306406157".toList) 0 1).2 (by decide)
      (by decide) (by decide) (by decide) (by decide)⟩

/-- C4: with the default source "google", `process_single_isbn` (a total
function: it always returns exactly one record) issues exactly one
metadata-source call iff the input validates as ISBN-10 or ISBN-13, and on
an invalid input it issues no call and returns exactly the record carrying
the raw input under "Input ISBN" and the error "Invalid ISBN format". -/
theorem claim_C4_pipeline {α : Type} (fetch : List Char → Option α)
    (fmt : α → List Char → Record) (isbn_raw : List Char) :
    ((process_single_isbn fetch fmt isbn_raw ("google".toList)).2.length =
      if is_valid_isbn13 (normalize_isbn isbn_raw) = true ∨
          is_valid_isbn10 (normalize_isbn isbn_raw) = true
        then 1 else 0) ∧
    (is_valid_isbn13 (normalize_isbn isbn_raw) = false →
      is_valid_isbn10 (normalize_isbn isbn_raw) = false →
      process_single_isbn fetch fmt isbn_raw ("google".toList) =
        ({ inputIsbn := some isbn_raw,
           error := some ("Invalid ISBN format".toList) }, [])) := by
  obtain ⟨hA, hB⟩ := process_calls fetch fmt isbn_raw
  refine ⟨?_, fun h13 h10 => hA ⟨h13, h10⟩⟩
  by_cases h : is_valid_isbn13 (normalize_isbn isbn_raw) = true ∨
      is_valid_isbn10 (normalize_isbn isbn_raw) = true
  · rw [if_pos h, hB h]
    rfl
  · rw [if_neg h]
    have h13 : is_valid_isbn13 (normalize_isbn isbn_raw) = false := by
      cases hb : is_valid_isbn13 (normalize_isbn isbn_raw)
      · rfl
      · exact absurd (Or.inl hb) h
    have h10 : is_valid_isbn10 (normalize_isbn isbn_raw) = false := by
      cases hb : is_valid_isbn10 (normalize_isbn isbn_raw)
      · rfl
      · exact absurd (Or.inr hb) h
    rw [hA ⟨h13, h10⟩]
    rfl

/-- C4 witness: the invalid-input branch evaluated at "abc" with a trivial
fetch oracle. -/
theorem claim_C4_witness :
    process_single_isbn (fun _ => (none : Option Unit)) (fun _ _ => {})
        ("abc".toList) ("google".toList) =
      ({ inputIsbn := some ("abc".toList),
         error := some ("Invalid ISBN format".toList) }, []) :=
  (claim_C4_pipeline (fun _ => (none : Option Unit)) (fun _ _ => {})
    ("abc".toList)).2 (by decide) (by decide)

/-- C5 (amended): the sentinel match is case-INSENSITIVE on the stripped
line: the loop ends at the first line whose stripped form upper-cases to
"QUITSCAN", without resolving that line and discarding the rest of the
stream; every other line that is non-empty after stripping is resolved
through the pipeline in scan order; end-of-stream and interrupt also end
the loop. -/
theorem claim_C5_sentinel (proc : List Char → Record) :
    (∀ (pre : List (List Char)) (q : List Char) (junk : List ScanEvent),
      (∀ l ∈ pre, isSentinel (pyStrip l) = false) →
      pyUpper (pyStrip q) = "QUITSCAN".toList →
      sessionRecords proc (pre.map ScanEvent.line ++ ScanEvent.line q :: junk) =
        sessionRecords proc (pre.map ScanEvent.line)) ∧
    (∀ (t : List Char) (rest : List ScanEvent),
      pyUpper (pyStrip t) ≠ "QUITSCAN".toList → pyStrip t ≠ [] →
      sessionRecords proc (ScanEvent.line t :: rest) =
        proc (pyStrip t) :: sessionRecords proc rest) ∧
    (∀ rest, sessionRecords proc (ScanEvent.eof :: rest) = []) ∧
    (∀ rest, sessionRecords proc (ScanEvent.interrupt :: rest) = []) := by
  refine ⟨?_, ?_, fun _ => rfl, fun _ => rfl⟩
  · intro pre q junk hpre hq
    exact sessionRecords_until_sentinel proc pre q junk hpre (isSentinel_iff.2 hq)
  · intro t rest hs hne
    apply sessionRecords_line_cons
    · cases hb : isSentinel (pyStrip t)
      · rfl
      · exact absurd (isSentinel_iff.1 hb) hs
    · cases hb : (pyStrip t).isEmpty
      · rfl
      · exact absurd (List.isEmpty_iff.1 hb) hne

/-- C5 counterexample: the lower-case line "quitscan" differs from the
sentinel "QUITSCAN" only in letter case, yet it ends the loop unresolved:
the session over ["quitscan", "0306406152"] produces no records at all
(the claim's case-sensitive reading would have resolved both lines). -/
theorem claim_C5_counterexample :
    pyStrip ("quitscan".toList) ≠ "QUITSCAN".toList ∧
    pyUpper (pyStrip ("quitscan".toList)) = "QUITSCAN".toList ∧
    sessionRecords (fun s => { inputIsbn := some s })
      [ScanEvent.line ("quitscan".toList),
       ScanEvent.line ("0306406152".toList)] = [] := by
  refine ⟨by decide, by decide, by decide⟩

/-- C5 witness: one non-sentinel line followed by the sentinel and a junk
line — the junk line is discarded. -/
theorem claim_C5_witness :
    sessionRecords (fun s => { inputIsbn := some s })
        ([("0306406152".toList)].map ScanEvent.line ++
          ScanEvent.line ("quitscan".toList) ::
            [ScanEvent.line ("9780306406157".toList)]) =
      sessionRecords (fun s => { inputIsbn := some s })
        ([("0306406152".toList)].map ScanEvent.line) :=
  (claim_C5_sentinel (fun s => { inputIsbn := some s })).1
    [("0306406152".toList)] ("quitscan".toList)
    [ScanEvent.line ("9780306406157".toList)] (by decide) (by decide)

/-- C6 (amended): `normalize_isbn` removes only the hyphen-minus and the
plain space character and upper-cases the rest; other whitespace (tabs,
newlines, …) is NOT removed. -/
theorem claim_C6_normalize (s : List Char) :
    normalize_isbn s = (s.filter (fun c => !(c = '-' || c = ' '))).map upperChar :=
  normalize_eq_filter_map s

/-- C6 counterexample: a tab character survives `normalize_isbn` but would
be stripped by the spec's description ("all hyphen and whitespace"). -/
theorem claim_C6_counterexample :
    normalize_isbn ['\t'] = ['\t'] ∧ normalizeSpecWords ['\t'] = [] ∧
    normalize_isbn ['\t'] ≠ normalizeSpecWords ['\t'] := by
  refine ⟨by decide, by decide, by decide⟩

/-- C7: `to_isbn10` returns no result exactly when its input is not a valid
ISBN-13 whose normalized form starts with "978"; `to_isbn13` returns no
result exactly when its input is rejected by `is_valid_isbn10`. -/
theorem claim_C7_nonconvertibility (s : List Char) :
    (to_isbn10 s = none ↔
      ¬(is_valid_isbn13 s = true ∧
        (normalize_isbn s).take 3 = ['9', '7', '8'])) ∧
    (to_isbn13 s = none ↔ is_valid_isbn10 s = false) :=
  ⟨to_isbn10_none_iff, to_isbn13_none_iff⟩

/-- C8: normalization is idempotent. -/
theorem claim_C8_normalize_idempotent (s : List Char) :
    normalize_isbn (normalize_isbn s) = normalize_isbn s :=
  normalize_isbn_idem s

/-- C9 (amended): when the accepted input's normalized form is exactly the
10-character (resp. 13-character) form — acceptance not resting on the
regex's trailing-newline allowance — a successful `to_isbn13` yields a
string accepted by `is_valid_isbn13` consisting of exactly 13 digit
characters, and a successful `to_isbn10` yields a string accepted by
`is_valid_isbn10`.  Inputs accepted only via the trailing-newline
allowance produce malformed, rejected outputs (see the counterexample). -/
theorem claim_C9_outputs_valid (s t : List Char) :
    (to_isbn13 s = some t → (normalize_isbn s).length = 10 →
      is_valid_isbn13 t = true ∧ t.length = 13 ∧ t.all isDigitChar = true) ∧
    (to_isbn10 s = some t → (normalize_isbn s).length = 13 →
      is_valid_isbn10 t = true) :=
  ⟨fun h hx => to_isbn13_valid h hx, fun h hx => to_isbn10_valid h hx⟩

/-- C9 counterexample: Python's `$` also matches just before one trailing
newline, so `is_valid_isbn10` accepts "0306406152\n"; `to_isbn13` then
emits the 14-character "97803064061527" (the slice `[:-1]` removed the
newline instead of the check digit), which `is_valid_isbn13` rejects and
which does not have 13 characters.  Likewise `is_valid_isbn13` accepts
"9780306406157\n" and `to_isbn10` emits the 11-character "03064061572",
which `is_valid_isbn10` rejects. -/
theorem claim_C9_counterexample :
    is_valid_isbn10 ("0306406152\n".toList) = true ∧
    to_isbn13 ("0306406152\n".toList) = some ("97803064061527".toList) ∧
    is_valid_isbn13 ("97803064061527".toList) = false ∧
    ("97803064061527".toList).length ≠ 13 ∧
    is_valid_isbn13 ("9780306406157\n".toList) = true ∧
    to_isbn10 ("9780306406157\n".toList) = some ("03064061572".toList) ∧
    is_valid_isbn10 ("03064061572".toList) = false := by
  refine ⟨by decide, by decide, by decide, by decide, by decide, by decide,
    by decide⟩

/-- C9 witness: both converters evaluated at concrete valid inputs of the
exact-length form. -/
theorem claim_C9_witness :
    (is_valid_isbn13 ("9780306406157".toList) = true ∧
      ("9780306406157".toList).length = 13 ∧
      ("9780306406157".toList).all isDigitChar = true) ∧
    is_valid_isbn10 ("0306406152".toList) = true :=
  ⟨(claim_C9_outputs_valid ("0306406152".toList) ("9780306406157".toList)).1
      (by decide) (by decide),
   (claim_C9_outputs_valid ("9780306406157".toList) ("0306406152".toList)).2
      (by decide) (by decide)⟩

/-- C10: every record produced by `process_single_isbn` carries the raw
input string — not its normalized form — under the "Input ISBN" key, on
every execution path and for every choice of collaborators. -/
theorem claim_C10_input_identifier {α : Type} (fetch : List Char → Option α)
    (fmt : α → List Char → Record) (isbn_raw preferred_api : List Char) :
    (process_single_isbn fetch fmt isbn_raw preferred_api).1.inputIsbn =
      some isbn_raw :=
  process_inputIsbn fetch fmt isbn_raw preferred_api

/-- C6 witness: the characterization evaluated at a concrete string. -/
theorem claim_C6_witness :
    normalize_isbn ("9-7 8x".toList) =
      (("9-7 8x".toList).filter (fun c => !(c = '-' || c = ' '))).map upperChar :=
  claim_C6_normalize ("9-7 8x".toList)

/-- C7 witness: both converters return no result on the short string
"1234". -/
theorem claim_C7_witness :
    to_isbn10 ("1234".toList) = none ∧ to_isbn13 ("1234".toList) = none :=
  ⟨(claim_C7_nonconvertibility ("1234".toList)).1.2 (by decide),
   (claim_C7_nonconvertibility ("1234".toList)).2.2 (by decide)⟩

/-- C8 witness: idempotence evaluated at a concrete string. -/
theorem claim_C8_witness :
    normalize_isbn (normalize_isbn ("978-0-306-40615-7".toList)) =
      normalize_isbn ("978-0-306-40615-7".toList) :=
  claim_C8_normalize_idempotent ("978-0-306-40615-7".toList)

/-- C10 witness: the invariant evaluated at a concrete input with a trivial
oracle. -/
theorem claim_C10_witness :
    (process_single_isbn (fun _ => (none : Option Unit)) (fun _ _ => {})
        ("0306406152".toList) ("google".toList)).1.inputIsbn =
      some ("0306406152".toList) :=
  claim_C10_input_identifier (fun _ => (none : Option Unit)) (fun _ _ => {})
    ("0306406152".toList) ("google".toList)

example : normalize_isbn "978-0-306-40615-7".toList = "9780306406157".toList := by decide
example : is_valid_isbn10 "0306406152".toList = true := by decide
example : is_valid_isbn10 "0306406155".toList = false := by decide
example : is_valid_isbn13 "9780306406157".toList = true := by decide
example : to_isbn13 "0306406152".toList = some "9780306406157".toList := by decide
example : to_isbn10 "9780306406157".toList = some "0306406152".toList := by decide
example : to_isbn13 "0-439-02352-1".toList = some "9780439023528".toList := by decide
example : to_isbn10 "9791028902657".toList = none := by decide

end IsbnBib
